import Mathlib

/-!
Verification development for the skein personal publishing engine
(`src/unnamed/part_001`, the `Site` class, plus its spec).  The data model
and operations are shallowly embedded: the external microformat codec,
templates and HTTP layer are parameters (`Env`), while the publish
pipeline, index, scan, slug allocation, stream regeneration and the
webmention handler are translated from the source.
-/

/-- An mf-obj entry, the unit of published content.  The codec (mf-obj) is an
external collaborator, so an entry is modelled as a record of the attributes
the `Site` code reads and writes: canonical `url`, `name`, author name,
`published` timestamp, content value/html, `category` list, syndication
lists, optional accumulated oEmbed html, the codec-derived flags
`isReply`/`isLike`/`isArticle`, the resolved reference entries, and the
grafted webmention `children`. -/
inductive Entry : Type where
  | mk (url : String) (name : String) (authorName : String) (published : Int)
       (contentValue : String) (contentHtml : String)
       (category : List String) (syndication : List String) (syndicateTo : List String)
       (embedHtml : Option String)
       (isReply : Bool) (isLike : Bool) (isArticle : Bool)
       (replyTo : List Entry) (likeOf : List Entry) (repostOf : List Entry)
       (children : List Entry)

def Entry.url : Entry → String
  | .mk u .. => u

def Entry.name : Entry → String
  | .mk _ n .. => n

def Entry.authorName : Entry → String
  | .mk _ _ a .. => a

def Entry.published : Entry → Int
  | .mk _ _ _ p .. => p

def Entry.contentValue : Entry → String
  | .mk _ _ _ _ cv .. => cv

def Entry.contentHtml : Entry → String
  | .mk _ _ _ _ _ ch .. => ch

def Entry.category : Entry → List String
  | .mk _ _ _ _ _ _ c .. => c

def Entry.syndication : Entry → List String
  | .mk _ _ _ _ _ _ _ s .. => s

def Entry.syndicateTo : Entry → List String
  | .mk _ _ _ _ _ _ _ _ s .. => s

def Entry.embedHtml : Entry → Option String
  | .mk _ _ _ _ _ _ _ _ _ e .. => e

def Entry.isReply : Entry → Bool
  | .mk _ _ _ _ _ _ _ _ _ _ r .. => r

def Entry.isLike : Entry → Bool
  | .mk _ _ _ _ _ _ _ _ _ _ _ l .. => l

def Entry.isArticle : Entry → Bool
  | .mk _ _ _ _ _ _ _ _ _ _ _ _ a .. => a

def Entry.children : Entry → List Entry
  | .mk _ _ _ _ _ _ _ _ _ _ _ _ _ _ _ _ c => c

/-- `entry.syndication = value` assignment (used by the syndication step). -/
def Entry.withSyndication : Entry → List String → Entry
  | .mk u n a p cv ch cat _ st e r l ar rt lo ro chd, syn =>
      .mk u n a p cv ch cat syn st e r l ar rt lo ro chd

/-- `entry.embed` accumulation result (used by the oEmbed step). -/
def Entry.withEmbed : Entry → Option String → Entry
  | .mk u n a p cv ch cat syn st _ r l ar rt lo ro chd, e =>
      .mk u n a p cv ch cat syn st e r l ar rt lo ro chd

/-- mf-obj `Entry.prototype.addChild`: graft a webmention reply onto the
target entry (append-only child list). -/
def Entry.addChild : Entry → Entry → Entry
  | .mk u n a p cv ch cat syn st e r l ar rt lo ro chd, c =>
      .mk u n a p cv ch cat syn st e r l ar rt lo ro (chd ++ [c])

/-- mf-obj `Entry.byDateDesc` comparator: most recent first. -/
def dateDesc (a b : Entry) : Prop := b.published ≤ a.published

instance : DecidableRel dateDesc := fun a b =>
  inferInstanceAs (Decidable (b.published ≤ a.published))

instance : IsTotal Entry dateDesc :=
  ⟨fun a b => le_total b.published a.published⟩

instance : IsTrans Entry dateDesc :=
  ⟨fun _ _ _ hab hbc => le_trans hbc hab⟩

/-- `entries.sort(mfo.Entry.byDateDesc)`. -/
def sortByDateDesc (l : List Entry) : List Entry := List.insertionSort dateDesc l

/-- `hiddenFilter = e => !e.category.some(c => c === 'hidden')`. -/
def hiddenFilter (e : Entry) : Bool := !(e.category.any (fun c => c == "hidden"))

/-- `mainFilter = e => !e.isReply() && !e.isLike()`. -/
def mainFilter (e : Entry) : Bool := !e.isReply && !e.isLike

/-- `replyFilter = e => e.isReply() || e.isLike()`. -/
def replyFilter (e : Entry) : Bool := e.isReply || e.isLike

/-- `articleFilter = e => e.isArticle()`. -/
def articleFilter (e : Entry) : Bool := e.isArticle

/-- Modelled from the spec: `util.chunk` (not under `src/`) splits a list
into consecutive fixed-size chunks of at most `n` elements; fuel-structured
so it is total and computes by `rfl`. -/
def chunkGo (n : Nat) : Nat → List α → List (List α)
  | 0, _ => []
  | _ + 1, [] => []
  | f + 1, x :: xs => (x :: xs).take n :: chunkGo n f ((x :: xs).drop n)

/-- Modelled from the spec: `util.chunk limit entries`. -/
def chunk (n : Nat) (l : List α) : List (List α) := chunkGo n l.length l

/-- Modelled from the spec: `util.kebabCase` (not under `src/`), kebab-case
conversion of a name: lower-case alphanumerics, everything else a hyphen. -/
def kebabCase (s : String) : String :=
  String.mk (s.toList.map (fun c => if c.isAlphanum then c.toLower else '-'))

/-- Modelled from the spec: `util.unique` (not under `src/`), first-occurrence
deduplication. -/
def uniqueFirst (l : List String) : List String :=
  l.foldl (fun acc x => if acc.contains x then acc else acc ++ [x]) []

/-- `getPathForIndex(page)` from `src/unnamed/part_001`:
`'index' + (page == 1 ? '' : page)`. -/
def getPathForIndex (page : Nat) : String :=
  "index" ++ (if page = 1 then "" else toString page)

/-- `getPathForTag(category)`: `'/tags/' + util.kebabCase(category)`. -/
def getPathForTag (category : String) : String := "/tags/" ++ kebabCase category

/-- The entry list rendered onto the main-stream pages by `generateStreams`:
sorted descending, `mainFilter` then `hiddenFilter`, chunked by
`entriesPerPage`; chunk `i` becomes page `i+1`. -/
def mainPages (entriesPerPage : Nat) (entries : List Entry) : List (List Entry) :=
  chunk entriesPerPage (((sortByDateDesc entries).filter mainFilter).filter hiddenFilter)

/-- The entry lists of the reply-stream pages of `generateStreams`. -/
def replyPages (entriesPerPage : Nat) (entries : List Entry) : List (List Entry) :=
  chunk entriesPerPage (((sortByDateDesc entries).filter replyFilter).filter hiddenFilter)

/-- `var tags = util.unique(util.flatten(entries.map(e => e.category)))` —
computed over all entries of the index, hidden included. -/
def tagList (entries : List Entry) : List String :=
  uniqueFirst (List.flatten ((sortByDateDesc entries).map Entry.category))

/-- The entry list of one tag index page:
`entries.filter(e => e.category.indexOf(tag) > -1)` — no hidden filter. -/
def tagPage (entries : List Entry) (tag : String) : List Entry :=
  (sortByDateDesc entries).filter (fun e => e.category.contains tag)

/-- All tag index pages produced by `generateStreams`: one per distinct tag,
at the slugified tag path. -/
def tagPages (entries : List Entry) : List (String × List Entry) :=
  (tagList entries).map (fun t => (getPathForTag t, tagPage entries t))

/-- The entry list of the `/articles` page:
`entries.filter(e => e.isArticle())` — only the article filter. -/
def articlesEntries (entries : List Entry) : List Entry :=
  (sortByDateDesc entries).filter articleFilter

/-- A JavaScript variable that starts as `""` or a number and is only ever
incremented: `""++` coerces the empty string to `0` and yields `1`. -/
inductive JsN : Type where
  | emptyStr : JsN
  | num (n : Nat) : JsN

/-- String rendering of the counter (`prefix + n` concatenation). -/
def JsN.render : JsN → String
  | .emptyStr => ""
  | .num n => toString n

/-- The `n++` step of `getNextAvailable`. -/
def JsN.inc : JsN → JsN
  | .emptyStr => .num 1
  | .num n => .num (n + 1)

/-- The counter value after `i` increments. -/
def JsN.iter (n0 : JsN) : Nat → JsN
  | 0 => n0
  | i + 1 => (JsN.iter n0 i).inc

/-- The `i`-th candidate key probed by `getNextAvailable(n0, pre)`. -/
def candAt (pre : String) (n0 : JsN) (i : Nat) : String :=
  pre ++ (JsN.iter n0 i).render

/-- `Site.getNextAvailable(n, prefix)`: probe `prefix + n`, `prefix + (n+1)`,
… until the store reports a key that does not exist.  The JavaScript loop has
no bound, so the embedding takes fuel; `none` models non-termination within
the given number of probes. -/
def getNextAvailableFuel (ex : String → Bool) (pre : String) : Nat → JsN → Option String
  | 0, n => if ex (pre ++ n.render) then none else some (pre ++ n.render)
  | f + 1, n =>
      if ex (pre ++ n.render) then getNextAvailableFuel ex pre f n.inc
      else some (pre ++ n.render)

/-- The publication date as the `Site` code consumes it: `getFullYear()`,
0-based `getMonth()`, `getDate()`, plus the numeric timestamp used by the
`byDateDesc` comparator. -/
structure DateT where
  year : Nat
  month0 : Nat
  day : Nat
  ts : Int

/-- `'/' + date.getFullYear() + '/' + (date.getMonth() + 1) + '/' + date.getDate()`. -/
def datepart (d : DateT) : String :=
  "/" ++ toString d.year ++ "/" ++ toString (d.month0 + 1) ++ "/" ++ toString d.day

/-- `Site.getSlug(name, date)`: with a name, probe from the kebab-cased name
with an initially empty suffix; without one, probe `prefix/1`, `prefix/2`, … -/
def getSlugFuel (ex : String → Bool) (fuel : Nat) (name : Option String) (d : DateT) :
    Option String :=
  match name with
  | some nm => getNextAvailableFuel ex (datepart d ++ "/" ++ kebabCase nm) fuel .emptyStr
  | none => getNextAvailableFuel ex (datepart d ++ "/") fuel (.num 1)

/-- A stored object: body and content type. -/
abbrev StoreObj := String × String

/-- The content store, keyed by store-relative paths.  `put` on an existing
key replaces in place, otherwise appends. -/
abbrev Store := List (String × StoreObj)

def storeGet : Store → String → Option StoreObj
  | [], _ => none
  | kv :: rest, k => if kv.1 == k then some kv.2 else storeGet rest k

def storePut : Store → String → StoreObj → Store
  | [], k, v => [(k, v)]
  | kv :: rest, k, v => if kv.1 == k then (k, v) :: rest else kv :: storePut rest k v

/-- `publisher.exists(key)`. -/
def storeHas (s : Store) (k : String) : Bool := (storeGet s k).isSome

/-- `publisher.list()`. -/
def storeKeys (s : Store) : List String := s.map Prod.fst

/-- The Entry Index, `Map<string, mfo.Entry>`: an association list in
insertion order, since a JS `Map` iterates in insertion order and `set` on an
existing key keeps its position. -/
abbrev EIndex := List (String × Entry)

def alGet : EIndex → String → Option Entry
  | [], _ => none
  | kv :: rest, k => if kv.1 == k then some kv.2 else alGet rest k

def alSet : EIndex → String → Entry → EIndex
  | [], k, v => [(k, v)]
  | kv :: rest, k, v => if kv.1 == k then (k, v) :: rest else kv :: alSet rest k v

/-- `getAll()`: `Array.from(this.entries.values())`. -/
def alValues (m : EIndex) : List Entry := m.map Prod.snd

/-- The mutable state owned by the `Site` object: the Entry Index and the
content store behind the publisher client. -/
structure SiteState where
  entries : EIndex
  store : Store

/-- The slice of `SiteConfig` the embedded operations read. -/
structure SiteCfg where
  url : String
  authorName : String
  entriesPerPage : Nat

/-- Failure taxonomy of the core operations. -/
inductive Err : Type where
  | notFound (msg : String)
  | badRequest (msg : String)
  | resolveFailed (u : String)
  | parseFailed
  | syndicationFailed
  | slugSearchExhausted
deriving DecidableEq

/-- `Site.get(u)`: direct lookup, throwing `u + ' not found'` when absent. -/
def siteGet (st : SiteState) (u : String) : Except Err Entry :=
  match alGet st.entries u with
  | none => .error (.notFound (u ++ " not found"))
  | some e => .ok e

/-- An externally visible effect of a pipeline run. -/
inductive Eff : Type where
  | put (key body ct : String)
  | setIndex (u : String)
  | commit (msg : String)
  | notify (src tgt : String) (delivered : Bool)
deriving DecidableEq

def Eff.isNotify : Eff → Bool
  | .notify .. => true
  | _ => false

def Eff.isPut : Eff → Bool
  | .put .. => true
  | _ => false

/-- A trace action: the advisory lock, its release, an effect performed
while holding the lock, or an effect performed after release. -/
inductive Act : Type where
  | lock
  | unlock
  | crit (e : Eff)
  | post (e : Eff)
deriving DecidableEq

def Act.isCommitAct : Act → Bool
  | .crit (.commit _) => true
  | .post (.commit _) => true
  | _ => false

/-- The phase of one call with respect to the lock: not yet acquired,
holding (remaining critical effects, then release, then post effects), or
released. -/
inductive Ph : Type where
  | full (cs ps : List Eff)
  | inCrit (cs ps : List Eff)
  | inPost (ps : List Eff)

def Ph.reify : Ph → List Act
  | .full cs ps => Act.lock :: cs.map Act.crit ++ Act.unlock :: ps.map Act.post
  | .inCrit cs ps => cs.map Act.crit ++ Act.unlock :: ps.map Act.post
  | .inPost ps => ps.map Act.post

def Ph.crits : Ph → List Eff
  | .full cs _ => cs
  | .inCrit cs _ => cs
  | .inPost _ => []

def Ph.notHolding : Ph → Prop
  | .inCrit _ _ => False
  | _ => True

def Ph.holding : Ph → Prop
  | .inCrit _ _ => True
  | _ => False

/-- Trace of a run that aborts before commit: the lock, the effects issued
so far, and the release performed by the `finally` clause. -/
def errTrace (ws : List Eff) : List Act := (Ph.full ws []).reify

/-- Trace of a completed run: lock, critical effects (commit included),
release, then the post-release effects. -/
def okTrace (ws ps : List Eff) : List Act := (Ph.full ws ps).reify

/-- The collaborators and repository utility functions (mf-obj codec, jade
templates, node url, oEmbed, POSSE, `./util`) consumed by `Site`, modelled as
pure function parameters. -/
structure Env where
  resolveEntry : String → Option Entry
  fetchEntry : String → Option Entry
  parseEntryFromHtml : String → String → Option Entry
  urlResolve : String → String → String
  urlPathname : String → String
  oembed : String → Option String
  syndicate : Entry → Option (List String)
  renderEntry : Entry → String
  renderStream : Nat → Nat → List Entry → String
  renderReplyStream : Nat → Nat → List Entry → String
  renderIndex : String → List Entry → String
  mentionsOf : Entry → List String
  getPath : Entry → String
  escapeHtml : String → String
  autoLink : String → String
  stripHtml : String → String
  commitMsg : Entry → String
  sendWm : String → String → Option Unit

/-- Replace only the outbound-webmention delivery collaborator. -/
def Env.withSendWm (e : Env) (f : String → String → Option Unit) : Env :=
  Env.mk e.resolveEntry e.fetchEntry e.parseEntryFromHtml e.urlResolve e.urlPathname
    e.oembed e.syndicate e.renderEntry e.renderStream e.renderReplyStream e.renderIndex
    e.mentionsOf e.getPath e.escapeHtml e.autoLink e.stripHtml e.commitMsg f

/-- `content: string | {html: string}` of a Micropub submission. -/
inductive MpContent : Type where
  | text (s : String)
  | html (s : String)

/-- `string | string[]` submission fields. -/
inductive MpVal : Type where
  | str (s : String)
  | list (l : List String)

def MpVal.toList : MpVal → List String
  | .str s => [s]
  | .list l => l

/-- An uploaded photo/audio file. -/
structure FileUpload where
  filename : String
  tmpfile : String
  mimetype : String

/-- A Micropub submission as consumed by `Site.publish`. -/
structure Micropub where
  name : Option String
  content : Option MpContent
  replyTo : Option String
  likeOf : Option String
  repostOf : Option String
  category : Option MpVal
  syndication : Option MpVal
  syndicateTo : Option MpVal
  photo : Option FileUpload
  audio : Option FileUpload

/-- JavaScript `a || b` on an optional string: empty strings are falsy. -/
def jsOr (o : Option String) (d : String) : String :=
  match o with
  | some s => if s = "" then d else s
  | none => d

/-- `path.dirname`: everything before the last `/`. -/
def dirnameStr (s : String) : String :=
  String.intercalate "/" (s.splitOn "/").dropLast

/-- `path.join(path.dirname(slug), file.filename)`, the media storage key. -/
def mediaKey (slug : String) (f : FileUpload) : String :=
  dirnameStr slug ++ "/" ++ f.filename

/-- The media-file store writes issued in the photo/audio step (the body
stands for the streamed temp file). -/
def mediaEffs (m : Micropub) (slug : String) : List Eff :=
  (match m.photo with
   | some f => [Eff.put (mediaKey slug f) ("file:" ++ f.tmpfile) f.mimetype]
   | none => []) ++
  (match m.audio with
   | some f => [Eff.put (mediaKey slug f) ("file:" ++ f.tmpfile) f.mimetype]
   | none => [])

/-- A store write is a media-file write of this submission. -/
def Eff.isMediaPut (m : Micropub) (w : Eff) : Prop :=
  ∃ s f, (m.photo = some f ∨ m.audio = some f) ∧
    w = Eff.put (mediaKey s f) ("file:" ++ f.tmpfile) f.mimetype

/-- The `entry.getMentions()` oEmbed loop: each failed lookup is swallowed
by its own try/catch; successes are appended to `entry.embed.html`, which is
first initialised to the empty string. -/
def oembedFold (f : String → Option String) (links : List String) : Option String :=
  links.foldl (fun acc l =>
    match f l with
    | none => acc
    | some s => some (acc.getD "" ++ s)) none

/-- Reference resolution for `replyTo`/`likeOf`/`repostOf`:
`[await mfo.getEntry(url, strategies)]`, fatal on failure. -/
def resolveRef (env : Env) (o : Option String) : Except Err (List Entry) :=
  match o with
  | none => .ok []
  | some u =>
      match env.resolveEntry u with
      | none => .error (.resolveFailed u)
      | some e => .ok [e]

/-- The entry constructed by `Site.publish` before the canonicalizing
re-parse: content normalisation, name defaulting, date, slug-derived URL,
resolved references, category/syndication normalisation, and the photo/audio
content wrapping. -/
def buildEntry (cfg : SiteCfg) (env : Env) (m : Micropub) (now : DateT) (slug : String)
    (rt lo ro : List Entry) : Entry :=
  let content := m.content.getD (.text "")
  let nm := match content with
    | .text s => jsOr m.name s
    | .html h => jsOr m.name (env.stripHtml h)
  let cv := match content with
    | .text s => s
    | .html h => env.stripHtml h
  let ch0 := match content with
    | .text s => "<div class=\"note-content\">" ++ env.autoLink (env.escapeHtml s) ++ "</div>"
    | .html h => h
  let cat := (m.category.map MpVal.toList).getD []
  let syn := (m.syndication.map MpVal.toList).getD []
  let sTo := (m.syndicateTo.map MpVal.toList).getD []
  let ch1 := match m.photo with
    | some f => "<div class=\"thumbnail\"><img class=\"u-photo\" src=\"" ++ f.filename
        ++ "\"/><div class=\"caption\">" ++ ch0 ++ "</div></div>"
    | none => ch0
  let ch2 := match m.audio with
    | some f => "<div class=\"thumbnail\"><audio class=\"u-audio\" src=\"" ++ f.filename
        ++ "\" controls></audio><div class=\"caption\">" ++ ch1 ++ "</div></div>"
    | none => ch1
  .mk (cfg.url ++ slug) nm cfg.authorName now.ts cv ch2 cat syn sTo none false false false
    rt lo ro []

/-- Apply the store writes of a list of effects. -/
def applyPuts (s : Store) (effs : List Eff) : Store :=
  effs.foldl (fun acc eff =>
    match eff with
    | .put k b ct => storePut acc k (b, ct)
    | _ => acc) s

/-- The store writes of `generateStreams`: main-stream pages, reply-stream
pages, one index per tag, and the articles page, each fully recomputed. -/
def genEffs (cfg : SiteCfg) (env : Env) (entries : List Entry) : List Eff :=
  let mains := mainPages cfg.entriesPerPage entries
  let reps := replyPages cfg.entriesPerPage entries
  ((List.range mains.length).map (fun i =>
      Eff.put (getPathForIndex (i + 1))
        (env.renderStream (i + 1) mains.length (mains.getD i [])) "text/html")) ++
  ((List.range reps.length).map (fun i =>
      Eff.put ("replies/" ++ getPathForIndex (i + 1))
        (env.renderReplyStream (i + 1) reps.length (reps.getD i [])) "text/html")) ++
  ((tagList entries).map (fun t =>
      Eff.put (getPathForTag t)
        (env.renderIndex ("Posts tagged " ++ t) (tagPage entries t)) "text/html")) ++
  [Eff.put "/articles" (env.renderIndex "Articles" (articlesEntries entries)) "text/html"]

/-- `Site.update(entry)`: render and persist the entry page, set the index
at the entry's URL, then regenerate every derived view. -/
def updateSite (cfg : SiteCfg) (env : Env) (st : SiteState) (e : Entry) :
    SiteState × List Eff :=
  let k := env.getPath e
  let h := env.renderEntry e
  let st1 : SiteState := ⟨alSet st.entries e.url e, storePut st.store k (h, "text/html")⟩
  let gws := genEffs cfg env (alValues st1.entries)
  (⟨st1.entries, applyPuts st1.store gws⟩,
   Eff.put k h "text/html" :: Eff.setIndex e.url :: gws)

/-- The commit + lock release + outbound webmention epilogue of `publish`. -/
def publishFinish (env : Env) (e : Entry) (st : SiteState) (ws : List Eff) :
    Except Err Entry × SiteState × List Act :=
  (.ok e, st,
   okTrace (ws ++ [Eff.commit (env.commitMsg e)])
     ((env.mentionsOf e).map (fun l => Eff.notify e.url l (env.sendWm e.url l).isSome)))

/-- `Site.publish(m)` from `src/unnamed/part_001`: build the entry, allocate
a slug, resolve references (fatal on failure), persist attached media, run
best-effort oEmbed lookups, render and re-parse for canonicalization (fatal
on failure), `update` (entry page write, index insert, full regeneration),
run POSSE syndication when requested (its failure is not caught) with a
second `update`, commit, release the lock, then send outbound webmentions. -/
def publish (cfg : SiteCfg) (env : Env) (fuel : Nat) (now : DateT) (m : Micropub)
    (st : SiteState) : Except Err Entry × SiteState × List Act :=
  match getSlugFuel (storeHas st.store) fuel m.name now with
  | none => (.error .slugSearchExhausted, st, errTrace [])
  | some slug =>
    match resolveRef env m.replyTo with
    | .error er => (.error er, st, errTrace [])
    | .ok rt =>
      match resolveRef env m.likeOf with
      | .error er => (.error er, st, errTrace [])
      | .ok lo =>
        match resolveRef env m.repostOf with
        | .error er => (.error er, st, errTrace [])
        | .ok ro =>
          let e1 := buildEntry cfg env m now slug rt lo ro
          let mws := mediaEffs m slug
          let st1 : SiteState := ⟨st.entries, applyPuts st.store mws⟩
          let e2 := e1.withEmbed (oembedFold env.oembed (env.mentionsOf e1))
          match env.parseEntryFromHtml (env.renderEntry e2) e2.url with
          | none => (.error .parseFailed, st1, errTrace mws)
          | some e3 =>
            let r1 := updateSite cfg env st1 e3
            if e3.syndicateTo.isEmpty then
              publishFinish env e3 r1.1 (mws ++ r1.2)
            else
              match env.syndicate e3 with
              | none => (.error .syndicationFailed, r1.1, errTrace (mws ++ r1.2))
              | some urls =>
                let e4 := e3.withSyndication (e3.syndication ++ urls)
                let r2 := updateSite cfg env r1.1 e4
                publishFinish env e4 r2.1 (mws ++ r1.2 ++ r2.2)

/-- `Site.receiveWebmention(sourceUrl, targetUrl)`: under the lock, require
the target in the index, fetch and parse the source, require a strict-equality
mention of the target among the source's outbound links; then graft the source
as a child of the target, re-render and persist the target page, and commit. -/
def receiveWebmention (env : Env) (st : SiteState) (sourceUrl targetUrl : String) :
    Except Err Unit × SiteState × List Act :=
  match alGet st.entries targetUrl with
  | none => (.error (.badRequest ("Target " ++ targetUrl ++ " not found")), st, errTrace [])
  | some targetEntry =>
    match env.fetchEntry sourceUrl with
    | none =>
        (.error (.badRequest ("Source " ++ sourceUrl ++ " not found")), st, errTrace [])
    | some sourceEntry =>
      if (env.mentionsOf sourceEntry).any (fun x => x == targetUrl) then
        let t2 := targetEntry.addChild sourceEntry
        let k := env.urlPathname t2.url
        let h := env.renderEntry t2
        (.ok (),
         ⟨alSet st.entries targetUrl t2, storePut st.store k (h, "text/html")⟩,
         okTrace [Eff.put k h "text/html", Eff.setIndex targetUrl,
                  Eff.commit (env.commitMsg sourceEntry)] [])
      else
        (.error (.badRequest ("Link to target " ++ targetUrl ++ " not found")), st,
         errTrace [])

/-- The reserved key filter of `scan()`:
`/^(index|js|css|tags|articles|replies)/` — the key starts with one of the
six reserved literals. -/
def scanExcluded (k : String) : Bool :=
  ["index", "js", "css", "tags", "articles", "replies"].any
    (fun p => p.toList.isPrefixOf k.toList)

/-- The per-key body of the scan loop: fetch the object, require HTML
content, parse it against the resolved request URL, and admit the entry only
when its canonical URL equals the request URL exactly or with a `.html`
suffix; parse failures and mismatches yield nothing. -/
def admitKey (cfg : SiteCfg) (env : Env) (s : Store) (k : String) : Option Entry :=
  match storeGet s k with
  | none => none
  | some obj =>
      if obj.2 = "text/html" then
        match env.parseEntryFromHtml obj.1 (env.urlResolve cfg.url k) with
        | none => none
        | some e =>
            if e.url = env.urlResolve cfg.url k ∨ e.url ++ ".html" = env.urlResolve cfg.url k
            then some e else none
      else none

/-- One step of the scan fold over keys. -/
def scanStep (cfg : SiteCfg) (env : Env) (s : Store) (acc : EIndex) (k : String) : EIndex :=
  match admitKey cfg env s k with
  | some e => alSet acc e.url e
  | none => acc

/-- `Site.scan()`: list keys, drop reserved prefixes, and build a fresh
index from the admitted entries. -/
def scanIndex (cfg : SiteCfg) (env : Env) (s : Store) : EIndex :=
  (((storeKeys s).filter (fun k => !scanExcluded k))).foldl (scanStep cfg env s) []

/-- Build an index from a list of admitted entries. -/
def buildIndex (l : List Entry) : EIndex :=
  l.foldl (fun acc e => alSet acc e.url e) []

/-- The atomic assignment `this.entries = entries` at the end of `scan`. -/
def doScan (cfg : SiteCfg) (env : Env) (st : SiteState) : SiteState :=
  ⟨scanIndex cfg env st.store, st.store⟩

/-- Projection of a tagged trace onto the effects performed under the lock. -/
def critProj (tr : List (Bool × Act)) : List (Bool × Eff) :=
  tr.filterMap (fun p =>
    match p.2 with
    | .crit e => some (p.1, e)
    | _ => none)

/-- Tag a list of effects with the thread that performs them. -/
def tagB (b : Bool) (cs : List Eff) : List (Bool × Eff) := cs.map (fun e => (b, e))

/-- An interleaving of two action sequences, actions tagged by thread. -/
inductive Shuffle : List Act → List Act → List (Bool × Act) → Prop where
  | nil : Shuffle [] [] []
  | left {x : Act} {xs ys : List Act} {tr : List (Bool × Act)} :
      Shuffle xs ys tr → Shuffle (x :: xs) ys ((false, x) :: tr)
  | right {y : Act} {xs ys : List Act} {tr : List (Bool × Act)} :
      Shuffle xs ys tr → Shuffle xs (y :: ys) ((true, y) :: tr)

/-- Modelled from the spec: `util.Mutex` (not under `src/`), a single
advisory mutual-exclusion lock.  A tagged trace respects the lock when no
thread acquires it while it is held and only the holder releases it. -/
def mutexOk : Option Bool → List (Bool × Act) → Bool
  | _, [] => true
  | none, (t, .lock) :: tr => mutexOk (some t) tr
  | some _, (_, .lock) :: _ => false
  | some h, (t, .unlock) :: tr => if h = t then mutexOk none tr else false
  | none, (_, .unlock) :: _ => false
  | h, (_, .crit _) :: tr => mutexOk h tr
  | h, (_, .post _) :: tr => mutexOk h tr

/-- Lock-phase consistency between the holder state and the two threads'
remaining scripts. -/
def HOk : Option Bool → Ph → Ph → Prop
  | none, d1, d2 => d1.notHolding ∧ d2.notHolding
  | some false, d1, d2 => d1.holding ∧ d2.notHolding
  | some true, d1, d2 => d1.notHolding ∧ d2.holding

/-- The serialization conclusion: the critical effects of the two threads
appear contiguously, the current holder's first. -/
def Concl : Option Bool → Ph → Ph → List (Bool × Act) → Prop
  | some false, d1, d2, tr => critProj tr = tagB false d1.crits ++ tagB true d2.crits
  | some true, d1, d2, tr => critProj tr = tagB true d2.crits ++ tagB false d1.crits
  | none, d1, d2, tr =>
      critProj tr = tagB false d1.crits ++ tagB true d2.crits ∨
      critProj tr = tagB true d2.crits ++ tagB false d1.crits

/-- A plain note entry used in concrete scenarios. -/
def sampleEntry (u : String) (p : Int) (cat : List String) (r l a : Bool) : Entry :=
  .mk u "n" "amy" p "v" "<p>v</p>" cat [] [] none r l a [] [] [] []

/-- A concrete entry tagged both "hidden" and "cats". -/
def hiddenCatEntry : Entry :=
  sampleEntry "https://ex.com/2024/1/1/x" 5 ["hidden", "cats"] false false false

/-- A concrete hidden article entry. -/
def hiddenArticleEntry : Entry :=
  sampleEntry "https://ex.com/art" 7 ["hidden"] false false true

/-- Two concrete main-stream note entries. -/
def noteEntryA : Entry := sampleEntry "https://ex.com/a" 9 [] false false false

def noteEntryB : Entry := sampleEntry "https://ex.com/b" 3 [] false false false

/-- A concrete site configuration with one entry per page. -/
def cfgC : SiteCfg := ⟨"https://ex.com", "amy", 1⟩

/-- The canonical entry the concrete codec returns from any re-parse: it
requests syndication to one target. -/
def parsedC : Entry :=
  .mk "https://ex.com/2024/3/2/hello" "Hello" "amy" 5 "Hi" "<p>Hi</p>" [] []
    ["twitter"] none false false false [] [] [] []

/-- A concrete environment: resolution and fetching fail, re-parse yields
`parsedC`, oEmbed, POSSE syndication and webmention delivery all fail. -/
def envC : Env :=
  Env.mk (fun _ => none) (fun _ => none) (fun _ _ => some parsedC) (fun _ k => k)
    (fun u => u) (fun _ => none) (fun _ => none) (fun e => "E:" ++ e.url)
    (fun _ _ _ => "S") (fun _ _ _ => "R") (fun _ _ => "I") (fun _ => [])
    (fun e => e.url) (fun s => s) (fun s => s) (fun s => s) (fun _ => "msg")
    (fun _ _ => none)

/-- `envC` with a succeeding POSSE syndication collaborator. -/
def envCsynOk : Env :=
  Env.mk (fun _ => none) (fun _ => none) (fun _ _ => some parsedC) (fun _ k => k)
    (fun u => u) (fun _ => none) (fun _ => some ["https://tw/1"])
    (fun e => "E:" ++ e.url) (fun _ _ _ => "S") (fun _ _ _ => "R") (fun _ _ => "I")
    (fun _ => []) (fun e => e.url) (fun s => s) (fun s => s) (fun s => s)
    (fun _ => "msg") (fun _ _ => none)

/-- A concrete text submission named "Hello". -/
def mC : Micropub :=
  ⟨some "Hello", some (.text "Hi"), none, none, none, none, none, none, none, none⟩

/-- A concrete submission whose reply-to reference cannot be resolved by
`envC`. -/
def mReply : Micropub :=
  ⟨some "Hello", some (.text "Hi"), some "https://r.com/p", none, none, none, none,
   none, none, none⟩

/-- 2 March 2024 (0-based month 2), timestamp 5. -/
def nowC : DateT := ⟨2024, 2, 2, 5⟩

/-- The empty site state. -/
def st0 : SiteState := ⟨[], []⟩

/-- The concrete publish run in which only POSSE syndication fails. -/
def publishCex : Except Err Entry × SiteState × List Act :=
  publish cfgC envC 3 nowC mC st0

/-- The same concrete publish run with POSSE syndication succeeding. -/
def publishCok : Except Err Entry × SiteState × List Act :=
  publish cfgC envCsynOk 3 nowC mC st0

/-- A concrete serialized interleaving of two minimal lock-guarded scripts. -/
def trSerialW : List (Bool × Act) :=
  [(false, .lock), (false, .crit (.setIndex "a")), (false, .unlock),
   (true, .lock), (true, .crit (.setIndex "b")), (true, .unlock)]

theorem chunkGo_flatten {α : Type} (n : Nat) (hn : 0 < n) :
    ∀ (f : Nat) (l : List α), l.length ≤ f → (chunkGo n f l).flatten = l := by
  intro f
  induction f with
  | zero =>
      intro l hl
      have : l = [] := List.eq_nil_of_length_eq_zero (Nat.le_zero.mp hl)
      subst this
      rfl
  | succ f ih =>
      intro l hl
      cases l with
      | nil => rfl
      | cons x xs =>
          simp only [chunkGo, List.flatten_cons]
          rw [ih]
          · exact List.take_append_drop n (x :: xs)
          · have h1 : (x :: xs).length ≤ f + 1 := hl
            have h2 : ((x :: xs).drop n).length = (x :: xs).length - n := List.length_drop n _
            simp only [List.length_cons] at h1 ⊢
            omega

theorem chunk_flatten {α : Type} (n : Nat) (hn : 0 < n) (l : List α) :
    (chunk n l).flatten = l :=
  chunkGo_flatten n hn l.length l le_rfl

theorem chunkGo_subset {α : Type} (n : Nat) :
    ∀ (f : Nat) (l c : List α), c ∈ chunkGo n f l → ∀ x ∈ c, x ∈ l := by
  intro f
  induction f with
  | zero =>
      intro l c hc
      simp [chunkGo] at hc
  | succ f ih =>
      intro l c hc x hx
      cases l with
      | nil => simp [chunkGo] at hc
      | cons y ys =>
          simp only [chunkGo, List.mem_cons] at hc
          rcases hc with h | h
          · subst h
            exact List.take_subset n _ hx
          · exact List.drop_subset n _ (ih _ c h x hx)

theorem chunkGo_length_le {α : Type} (n : Nat) :
    ∀ (f : Nat) (l c : List α), c ∈ chunkGo n f l → c.length ≤ n := by
  intro f
  induction f with
  | zero =>
      intro l c hc
      simp [chunkGo] at hc
  | succ f ih =>
      intro l c hc
      cases l with
      | nil => simp [chunkGo] at hc
      | cons y ys =>
          simp only [chunkGo, List.mem_cons] at hc
          rcases hc with h | h
          · subst h
            exact List.length_take_le n _
          · exact ih _ c h

theorem mem_chunk_subset {α : Type} {n : Nat} {l c : List α} (hc : c ∈ chunk n l) :
    ∀ x ∈ c, x ∈ l :=
  chunkGo_subset n l.length l c hc

theorem mem_chunk_length {α : Type} {n : Nat} {l c : List α} (hc : c ∈ chunk n l) :
    c.length ≤ n :=
  chunkGo_length_le n l.length l c hc

theorem JsN.iter_inc (n0 : JsN) : ∀ i, JsN.iter n0.inc i = JsN.iter n0 (i + 1) := by
  intro i
  induction i with
  | zero => rfl
  | succ i ih => simp only [JsN.iter, ih]

theorem candAt_inc (pre : String) (n0 : JsN) (i : Nat) :
    candAt pre n0.inc i = candAt pre n0 (i + 1) := by
  simp [candAt, JsN.iter_inc]

theorem JsN.iter_emptyStr_succ : ∀ i, JsN.iter .emptyStr (i + 1) = .num (i + 1) := by
  intro i
  induction i with
  | zero => rfl
  | succ i ih =>
      rw [show JsN.iter .emptyStr (i + 1 + 1) = (JsN.iter .emptyStr (i + 1)).inc from rfl, ih]
      rfl

theorem getNextAvailableFuel_finds (ex : String → Bool) :
    ∀ (f : Nat) (pre : String) (n0 : JsN) (k : Nat),
      ex (candAt pre n0 k) = false →
      (∀ j, j < k → ex (candAt pre n0 j) = true) →
      k ≤ f →
      getNextAvailableFuel ex pre f n0 = some (candAt pre n0 k) := by
  intro f
  induction f with
  | zero =>
      intro pre n0 k hfree hbusy hk
      have hk0 : k = 0 := Nat.le_zero.mp hk
      subst hk0
      simp only [candAt, JsN.iter] at hfree
      simp [getNextAvailableFuel, hfree, candAt, JsN.iter]
  | succ f ih =>
      intro pre n0 k hfree hbusy hk
      cases k with
      | zero =>
          simp only [candAt, JsN.iter] at hfree
          simp [getNextAvailableFuel, hfree, candAt, JsN.iter]
      | succ j =>
          have h0 : ex (pre ++ n0.render) = true := by
            have := hbusy 0 (Nat.succ_pos j)
            simpa [candAt, JsN.iter] using this
          have hrec := ih pre n0.inc j
            (by simpa [candAt_inc] using hfree)
            (fun i hi => by simpa [candAt_inc] using hbusy (i + 1) (Nat.succ_lt_succ hi))
            (Nat.succ_le_succ_iff.mp hk)
          rw [candAt_inc] at hrec
          simp [getNextAvailableFuel, h0, hrec]

theorem getNextAvailableFuel_diverges (ex : String → Bool) :
    ∀ (f : Nat) (pre : String) (n0 : JsN),
      (∀ i, ex (candAt pre n0 i) = true) →
      getNextAvailableFuel ex pre f n0 = none := by
  intro f
  induction f with
  | zero =>
      intro pre n0 hall
      have h0 := hall 0
      simp only [candAt, JsN.iter] at h0
      simp [getNextAvailableFuel, h0]
  | succ f ih =>
      intro pre n0 hall
      have h0 := hall 0
      simp only [candAt, JsN.iter] at h0
      have hrec := ih pre n0.inc (fun i => by simpa [candAt_inc] using hall (i + 1))
      simp [getNextAvailableFuel, h0, hrec]

/-- Claim C10: for every prefix and starting candidate, the probing loop of
`getNextAvailable` terminates and returns a key the store reports as not
existing, provided some candidate in the probed sequence does not exist
(here: the first free candidate has index `k` and the fuel covers it); when
every candidate exists, the loop does not terminate — it exhausts any
amount of fuel with no result. -/
theorem getNextAvailable_termination :
    (∀ (ex : String → Bool) (pre : String) (n0 : JsN) (k : Nat),
        ex (candAt pre n0 k) = false →
        (∀ j, j < k → ex (candAt pre n0 j) = true) →
        ∀ f, k ≤ f →
          getNextAvailableFuel ex pre f n0 = some (candAt pre n0 k) ∧
          ex (candAt pre n0 k) = false) ∧
    (∀ (ex : String → Bool) (pre : String) (n0 : JsN),
        (∀ i, ex (candAt pre n0 i) = true) →
        ∀ f, getNextAvailableFuel ex pre f n0 = none) :=
  ⟨fun ex pre n0 k hfree hbusy f hf =>
      ⟨getNextAvailableFuel_finds ex f pre n0 k hfree hbusy hf, hfree⟩,
   fun ex pre n0 hall f => getNextAvailableFuel_diverges ex f pre n0 hall⟩

/-- Witness for C10: a concrete store where the second candidate is free,
and a store where every candidate exists. -/
theorem getNextAvailable_termination_witness :
    getNextAvailableFuel (fun s => s == "/2024/3/2/hello") "/2024/3/2/hello" 3 .emptyStr
        = some "/2024/3/2/hello1" ∧
    getNextAvailableFuel (fun _ => true) "/p/" 7 (.num 1) = none := by
  constructor
  · have h := (getNextAvailable_termination.1 (fun s => s == "/2024/3/2/hello")
      "/2024/3/2/hello" .emptyStr 1 (by decide)
      (fun j hj => by
        have hj0 : j = 0 := Nat.lt_one_iff.mp hj
        subst hj0
        decide) 3 (by decide)).1
    exact h.trans (by decide)
  · exact getNextAvailable_termination.2 (fun _ => true) "/p/" (.num 1) (fun i => rfl) 7

/-- Claim C5 (amended): slug allocation with a name first tries the
candidate `datepart/kebab-case(name)` (empty suffix), then candidates with
the integer appended directly and starting at 1 — `…1`, `…2`, `…3`, … (the
JavaScript `""++` increment yields `1`; there is no `-2`-style suffix) —
and returns the first candidate the store reports as not existing; in
particular a second same-day publish named "Hello" on 2024-03-02 yields
`/2024/3/2/hello1`. -/
theorem getSlug_named_spec (ex : String → Bool) (nm : String) (d : DateT) (k : Nat)
    (hfree : ex (candAt (datepart d ++ "/" ++ kebabCase nm) .emptyStr k) = false)
    (hbusy : ∀ j, j < k →
        ex (candAt (datepart d ++ "/" ++ kebabCase nm) .emptyStr j) = true)
    (f : Nat) (hf : k ≤ f) :
    getSlugFuel ex f (some nm) d
        = some (candAt (datepart d ++ "/" ++ kebabCase nm) .emptyStr k) ∧
    candAt (datepart d ++ "/" ++ kebabCase nm) .emptyStr 0
        = datepart d ++ "/" ++ kebabCase nm ∧
    ∀ i, candAt (datepart d ++ "/" ++ kebabCase nm) .emptyStr (i + 1)
        = datepart d ++ "/" ++ kebabCase nm ++ toString (i + 1) := by
  refine ⟨?_, ?_, ?_⟩
  · simpa [getSlugFuel] using
      getNextAvailableFuel_finds ex f (datepart d ++ "/" ++ kebabCase nm) .emptyStr k
        hfree hbusy hf
  · simp [candAt, JsN.iter, JsN.render]
  · intro i
    simp [candAt, JsN.iter_emptyStr_succ, JsN.render, String.append_assoc]

/-- Counterexample to Claim C5: the claim predicts the numeric-suffix
candidates `…-2`, `…-3`, so that a second same-day publish named "Hello" on
2024-03-02 lands at `/2024/3/2/hello-2`; on the code, with
`/2024/3/2/hello` already existing, slug allocation returns
`/2024/3/2/hello1` instead. -/
theorem getSlug_suffix_counterexample :
    getSlugFuel (fun _ => false) 3 (some "Hello") ⟨2024, 2, 2, 5⟩
        = some "/2024/3/2/hello" ∧
    getSlugFuel (fun s => s == "/2024/3/2/hello") 3 (some "Hello") ⟨2024, 2, 2, 5⟩
        = some "/2024/3/2/hello1" ∧
    getSlugFuel (fun s => s == "/2024/3/2/hello") 3 (some "Hello") ⟨2024, 2, 2, 5⟩
        ≠ some "/2024/3/2/hello-2" := by
  refine ⟨by decide, by decide, by decide⟩

/-- Witness for C5 (amended) at the concrete scenario store. -/
theorem getSlug_named_spec_witness :
    getSlugFuel (fun s => s == "/2024/3/2/hello") 3 (some "Hello") ⟨2024, 2, 2, 5⟩
        = some "/2024/3/2/hello1" := by
  have h := (getSlug_named_spec (fun s => s == "/2024/3/2/hello") "Hello" ⟨2024, 2, 2, 5⟩ 1
      (by decide)
      (fun j hj => by
        have hj0 : j = 0 := Nat.lt_one_iff.mp hj
        subst hj0
        decide) 3 (by decide)).1
  exact h.trans (by decide)

/-- Claim C3: for every index and positive `entriesPerPage`, the
concatenation of the main-stream pages, in page order, is exactly the
non-hidden, non-reply, non-like entries sorted by descending publish time —
a permutation of the filtered index (no duplicates, no omissions), sorted
descending across page boundaries — and every page holds at most
`entriesPerPage` entries. -/
theorem pagination_coverage (epp : Nat) (hepp : 0 < epp) (entries : List Entry) :
    (mainPages epp entries).flatten
        = ((sortByDateDesc entries).filter mainFilter).filter hiddenFilter ∧
    List.Perm (mainPages epp entries).flatten
        ((entries.filter mainFilter).filter hiddenFilter) ∧
    List.Sorted dateDesc (mainPages epp entries).flatten ∧
    ∀ p ∈ mainPages epp entries, p.length ≤ epp := by
  have hflat : (mainPages epp entries).flatten
      = ((sortByDateDesc entries).filter mainFilter).filter hiddenFilter :=
    chunk_flatten epp hepp _
  refine ⟨hflat, ?_, ?_, ?_⟩
  · rw [hflat]
    exact ((List.perm_insertionSort dateDesc entries).filter mainFilter).filter hiddenFilter
  · rw [hflat]
    exact ((List.sorted_insertionSort dateDesc entries).filter mainFilter).filter hiddenFilter
  · intro p hp
    exact mem_chunk_length hp

/-- Witness for C3 at a concrete two-entry index with one entry per page. -/
theorem pagination_coverage_witness :
    0 < 1 ∧
    ((mainPages 1 [noteEntryB, noteEntryA]).flatten
        = ((sortByDateDesc [noteEntryB, noteEntryA]).filter mainFilter).filter hiddenFilter ∧
     List.Perm (mainPages 1 [noteEntryB, noteEntryA]).flatten
        (([noteEntryB, noteEntryA].filter mainFilter).filter hiddenFilter) ∧
     List.Sorted dateDesc (mainPages 1 [noteEntryB, noteEntryA]).flatten ∧
     ∀ p ∈ mainPages 1 [noteEntryB, noteEntryA], p.length ≤ 1) :=
  ⟨Nat.one_pos, pagination_coverage 1 Nat.one_pos [noteEntryB, noteEntryA]⟩

/-- Claim C4 (amended): an entry whose category set contains "hidden"
appears in no main-stream page and no reply-stream page, and direct lookup
by its URL still returns it; however the per-tag index pages are generated
from all entries with no hidden filter, so a hidden entry does appear on the
tag page of each of its tags. -/
theorem hidden_exclusion_amended (epp : Nat) (entries : List Entry) (e : Entry)
    (hh : "hidden" ∈ e.category) :
    (∀ p ∈ mainPages epp entries, e ∉ p) ∧
    (∀ p ∈ replyPages epp entries, e ∉ p) ∧
    (∀ st : SiteState, alGet st.entries e.url = some e → siteGet st e.url = .ok e) ∧
    (∀ t, t ∈ e.category → e ∈ entries → e ∈ tagPage entries t) := by
  have hhf : hiddenFilter e = false := by
    have hany : e.category.any (fun c => c == "hidden") = true :=
      List.any_eq_true.mpr ⟨"hidden", hh, by simp⟩
    simp [hiddenFilter, hany]
  refine ⟨?_, ?_, ?_, ?_⟩
  · intro p hp hmem
    have hin := mem_chunk_subset hp e hmem
    have := List.of_mem_filter hin
    rw [hhf] at this
    exact Bool.false_ne_true this
  · intro p hp hmem
    have hin := mem_chunk_subset hp e hmem
    have := List.of_mem_filter hin
    rw [hhf] at this
    exact Bool.false_ne_true this
  · intro st hget
    simp [siteGet, hget]
  · intro t ht he
    refine List.mem_filter.mpr ⟨?_, ?_⟩
    · simpa [sortByDateDesc] using he
    · show List.elem t e.category = true
      exact List.elem_eq_true_of_mem ht

/-- Counterexample to Claim C4: the concrete entry tagged both "hidden" and
"cats" appears on the "cats" tag index page produced by regeneration. -/
theorem hidden_tag_counterexample :
    "cats" ∈ tagList [hiddenCatEntry] ∧
    hiddenCatEntry ∈ tagPage [hiddenCatEntry] "cats" ∧
    (getPathForTag "cats", tagPage [hiddenCatEntry] "cats") ∈ tagPages [hiddenCatEntry] := by
  refine ⟨by decide, ?_, ?_⟩
  · have h : tagPage [hiddenCatEntry] "cats" = [hiddenCatEntry] := rfl
    rw [h]
    exact List.mem_singleton.mpr rfl
  · exact List.mem_map.mpr ⟨"cats", by decide, rfl⟩

/-- Witness for C4 (amended) at the concrete hidden entry. -/
theorem hidden_exclusion_amended_witness :
    (∀ p ∈ mainPages 1 [hiddenCatEntry], hiddenCatEntry ∉ p) ∧
    hiddenCatEntry ∈ tagPage [hiddenCatEntry] "cats" :=
  ⟨(hidden_exclusion_amended 1 [hiddenCatEntry] hiddenCatEntry (by decide)).1,
   (hidden_exclusion_amended 1 [hiddenCatEntry] hiddenCatEntry (by decide)).2.2.2
     "cats" (by decide) (List.mem_singleton.mpr rfl)⟩

/-- Claim C8: the articles page contains exactly the entries satisfying the
article filter — membership requires nothing about the "hidden" tag, and a
hidden article is included. -/
theorem articles_not_hidden_filtered (entries : List Entry) :
    (∀ e, e ∈ articlesEntries entries ↔ e ∈ entries ∧ e.isArticle = true) ∧
    (∀ e, e ∈ entries → e.isArticle = true → "hidden" ∈ e.category →
        e ∈ articlesEntries entries) := by
  constructor
  · intro e
    simp [articlesEntries, List.mem_filter, articleFilter, sortByDateDesc]
  · intro e he ha _
    simp [articlesEntries, List.mem_filter, articleFilter, sortByDateDesc, he, ha]

/-- Witness for C8: a concrete hidden article is on the articles page. -/
theorem articles_not_hidden_filtered_witness :
    hiddenArticleEntry ∈ articlesEntries [hiddenArticleEntry] :=
  (articles_not_hidden_filtered [hiddenArticleEntry]).2 hiddenArticleEntry
    (List.mem_singleton.mpr rfl) (by decide) (by decide)

/-- Claim C2: `receive(source, target)` fails with BadRequest exactly when
the target URL is absent from the Entry Index, or the source cannot be
fetched and parsed as an entry, or the parsed source's outbound mentions
contain no element strictly equal to the target URL; moreover every failure
is a BadRequest, and in every BadRequest case the state is unchanged and the
trace carries no effect at all (no child grafted, no store write, no
commit). -/
theorem webmention_rejection (env : Env) (st : SiteState) (s t : String) :
    ((∃ msg, (receiveWebmention env st s t).1 = .error (.badRequest msg)) ↔
      (alGet st.entries t = none ∨ env.fetchEntry s = none ∨
        ∃ se, env.fetchEntry s = some se ∧ t ∉ env.mentionsOf se)) ∧
    (∀ er, (receiveWebmention env st s t).1 = .error er → ∃ msg, er = .badRequest msg) ∧
    (∀ msg, (receiveWebmention env st s t).1 = .error (.badRequest msg) →
        (receiveWebmention env st s t).2.1 = st ∧
        (receiveWebmention env st s t).2.2 = errTrace []) := by
  cases hA : alGet st.entries t with
  | none =>
      have hr : receiveWebmention env st s t
          = (.error (.badRequest ("Target " ++ t ++ " not found")), st, errTrace []) := by
        simp [receiveWebmention, hA]
      refine ⟨⟨fun _ => Or.inl rfl, fun _ => ⟨"Target " ++ t ++ " not found", by rw [hr]⟩⟩,
        ?_, ?_⟩
      · intro er her
        rw [hr] at her
        exact ⟨"Target " ++ t ++ " not found", (Except.error.inj her).symm⟩
      · intro msg _
        rw [hr]
        exact ⟨rfl, rfl⟩
  | some te =>
      cases hF : env.fetchEntry s with
      | none =>
          have hr : receiveWebmention env st s t
              = (.error (.badRequest ("Source " ++ s ++ " not found")), st, errTrace []) := by
            simp [receiveWebmention, hA, hF]
          refine ⟨⟨fun _ => Or.inr (Or.inl rfl),
            fun _ => ⟨"Source " ++ s ++ " not found", by rw [hr]⟩⟩, ?_, ?_⟩
          · intro er her
            rw [hr] at her
            exact ⟨"Source " ++ s ++ " not found", (Except.error.inj her).symm⟩
          · intro msg _
            rw [hr]
            exact ⟨rfl, rfl⟩
      | some se =>
          cases hM : (env.mentionsOf se).any (fun x => x == t) with
          | false =>
              have hr : receiveWebmention env st s t
                  = (.error (.badRequest ("Link to target " ++ t ++ " not found")), st,
                     errTrace []) := by
                simp [receiveWebmention, hA, hF, hM]
              have hnm : t ∉ env.mentionsOf se := by
                intro hmem
                have : (env.mentionsOf se).any (fun x => x == t) = true :=
                  List.any_eq_true.mpr ⟨t, hmem, by simp⟩
                rw [hM] at this
                exact Bool.false_ne_true this
              refine ⟨⟨fun _ => Or.inr (Or.inr ⟨se, rfl, hnm⟩),
                fun _ => ⟨"Link to target " ++ t ++ " not found", by rw [hr]⟩⟩, ?_, ?_⟩
              · intro er her
                rw [hr] at her
                exact ⟨"Link to target " ++ t ++ " not found", (Except.error.inj her).symm⟩
              · intro msg _
                rw [hr]
                exact ⟨rfl, rfl⟩
          | true =>
              have hmem : t ∈ env.mentionsOf se := by
                rcases List.any_eq_true.mp hM with ⟨x, hx, hbx⟩
                exact (eq_of_beq hbx) ▸ hx
              have hr1 : (receiveWebmention env st s t).1 = .ok () := by
                simp [receiveWebmention, hA, hF, hM]
              refine ⟨⟨?_, ?_⟩, ?_, ?_⟩
              · intro ⟨msg, hmsg⟩
                rw [hr1] at hmsg
                exact absurd hmsg (by simp)
              · rintro (h | h | ⟨se', hse', hnm⟩)
                · exact absurd h (by simp)
                · exact absurd h (by simp)
                · exact absurd ((Option.some.inj hse') ▸ hmem) hnm
              · intro er her
                rw [hr1] at her
                exact absurd her (by simp)
              · intro msg hmsg
                rw [hr1] at hmsg
                exact absurd hmsg (by simp)

/-- Witness for C2: with an empty index, a concrete receive fails with
BadRequest and leaves state and trace untouched. -/
theorem webmention_rejection_witness :
    (∃ msg, (receiveWebmention envC st0 "https://s.com/p" "https://ex.com/q").1
        = .error (.badRequest msg)) ∧
    (receiveWebmention envC st0 "https://s.com/p" "https://ex.com/q").2.1 = st0 ∧
    (receiveWebmention envC st0 "https://s.com/p" "https://ex.com/q").2.2 = errTrace [] :=
  ⟨(webmention_rejection envC st0 "https://s.com/p" "https://ex.com/q").1.mpr
      (Or.inl rfl),
   (webmention_rejection envC st0 "https://s.com/p" "https://ex.com/q").2.2
      ("Target " ++ "https://ex.com/q" ++ " not found") rfl⟩

theorem alGet_alSet (m : EIndex) (k : String) (v : Entry) (u : String) :
    alGet (alSet m k v) u = if u = k then some v else alGet m u := by
  induction m with
  | nil =>
      by_cases h : u = k
      · simp [alSet, alGet, h]
      · simp [alSet, alGet, h, beq_iff_eq, Ne.symm h]
  | cons kv rest ih =>
      by_cases hk : kv.1 = k
      · by_cases hu : u = k
        · simp [alSet, alGet, hk, hu, beq_iff_eq]
        · simp [alSet, alGet, hk, hu, beq_iff_eq, Ne.symm hu]
      · by_cases hu : u = kv.1
        · have huk : ¬u = k := by
            rw [hu]
            exact hk
          simp [alSet, alGet, hk, hu, beq_iff_eq, huk]
        · simp [alSet, alGet, hk, hu, beq_iff_eq, Ne.symm hu, ih]

theorem buildIndex_lookup : ∀ (l : List Entry) (acc : EIndex) (u : String) (e : Entry),
    alGet (l.foldl (fun a x => alSet a x.url x) acc) u = some e →
    alGet acc u = some e ∨ (e ∈ l ∧ e.url = u) := by
  intro l
  induction l with
  | nil =>
      intro acc u e h
      exact Or.inl h
  | cons x xs ih =>
      intro acc u e h
      simp only [List.foldl_cons] at h
      rcases ih (alSet acc x.url x) u e h with h1 | h1
      · rw [alGet_alSet] at h1
        by_cases hu : u = x.url
        · rw [if_pos hu] at h1
          refine Or.inr ⟨?_, ?_⟩
          · rw [← Option.some.inj h1]
            exact List.mem_cons_self x xs
          · rw [← Option.some.inj h1, hu]
        · rw [if_neg hu] at h1
          exact Or.inl h1
      · exact Or.inr ⟨List.mem_cons_of_mem x h1.1, h1.2⟩

theorem foldl_scanStep_filterMap (cfg : SiteCfg) (env : Env) (s : Store) :
    ∀ (keys : List String) (acc : EIndex),
      keys.foldl (scanStep cfg env s) acc
        = (keys.filterMap (admitKey cfg env s)).foldl (fun a e => alSet a e.url e) acc := by
  intro keys
  induction keys with
  | nil =>
      intro acc
      rfl
  | cons k ks ih =>
      intro acc
      simp only [List.foldl_cons, List.filterMap_cons]
      cases hk : admitKey cfg env s k with
      | none => simp [scanStep, hk, ih]
      | some e => simp [scanStep, hk, ih, List.foldl_cons]

theorem admitKey_inv (cfg : SiteCfg) (env : Env) (s : Store) (k : String) (e : Entry)
    (h : admitKey cfg env s k = some e) :
    ∃ body, storeGet s k = some (body, "text/html") ∧
      env.parseEntryFromHtml body (env.urlResolve cfg.url k) = some e ∧
      (e.url = env.urlResolve cfg.url k ∨ e.url ++ ".html" = env.urlResolve cfg.url k) := by
  unfold admitKey at h
  cases hg : storeGet s k with
  | none =>
      rw [hg] at h
      exact absurd h (by simp)
  | some obj =>
      rw [hg] at h
      dsimp only at h
      by_cases hct : obj.2 = "text/html"
      · rw [if_pos hct] at h
        cases hp : env.parseEntryFromHtml obj.1 (env.urlResolve cfg.url k) with
        | none =>
            rw [hp] at h
            exact absurd h (by simp)
        | some e' =>
            rw [hp] at h
            dsimp only at h
            by_cases hu : e'.url = env.urlResolve cfg.url k ∨
                e'.url ++ ".html" = env.urlResolve cfg.url k
            · rw [if_pos hu] at h
              obtain rfl := Option.some.inj h
              refine ⟨obj.1, ?_, hp, hu⟩
              exact congrArg some (by rw [← hct])
            · rw [if_neg hu] at h
              exact absurd h (by simp)
      · rw [if_neg hct] at h
        exact absurd h (by simp)

/-- Claim C6: scan admits a fetched HTML object into the index only when
the parse succeeds and the parsed entry's canonical URL equals the request
URL exactly or with a `.html` suffix; parse failures and mismatching keys
contribute nothing (the fold over keys equals the fold over the admitted
entries only, with no error); and the resulting index is a function of the
store alone, installed by a single whole-index assignment that leaves the
store untouched. -/
theorem scan_admission (cfg : SiteCfg) (env : Env) :
    (∀ (s : Store) (u : String) (e : Entry),
        alGet (scanIndex cfg env s) u = some e →
        e.url = u ∧
        ∃ k, k ∈ storeKeys s ∧ scanExcluded k = false ∧
          ∃ body, storeGet s k = some (body, "text/html") ∧
            env.parseEntryFromHtml body (env.urlResolve cfg.url k) = some e ∧
            (e.url = env.urlResolve cfg.url k ∨
             e.url ++ ".html" = env.urlResolve cfg.url k)) ∧
    (∀ s : Store, scanIndex cfg env s
        = buildIndex (((storeKeys s).filter (fun k => !scanExcluded k)).filterMap
            (admitKey cfg env s))) ∧
    (∀ st st' : SiteState, st.store = st'.store →
        doScan cfg env st = doScan cfg env st') ∧
    (∀ st : SiteState, (doScan cfg env st).entries = scanIndex cfg env st.store ∧
        (doScan cfg env st).store = st.store) := by
  have heq : ∀ s : Store, scanIndex cfg env s
      = buildIndex (((storeKeys s).filter (fun k => !scanExcluded k)).filterMap
          (admitKey cfg env s)) := by
    intro s
    unfold scanIndex buildIndex
    exact foldl_scanStep_filterMap cfg env s _ []
  refine ⟨?_, heq, ?_, ?_⟩
  · intro s u e h
    rw [heq s] at h
    unfold buildIndex at h
    rcases buildIndex_lookup _ [] u e h with h1 | h1
    · exact absurd h1 (by simp [alGet])
    · refine ⟨h1.2, ?_⟩
      rcases List.mem_filterMap.mp h1.1 with ⟨k, hkmem, hadm⟩
      rcases List.mem_filter.mp hkmem with ⟨hks, hexc⟩
      refine ⟨k, hks, ?_, admitKey_inv cfg env s k e hadm⟩
      simpa using hexc
  · intro st st' hs
    simp [doScan, hs]
  · intro st
    exact ⟨rfl, rfl⟩

/-- Witness for C6: on a concrete one-object store, the scanned index holds
the parsed entry and the admission conditions are exhibited. -/
theorem scan_admission_witness :
    parsedC.url = "https://ex.com/2024/3/2/hello" ∧
    ∃ k, k ∈ storeKeys [("https://ex.com/2024/3/2/hello", ("H", "text/html"))] ∧
      scanExcluded k = false ∧
      ∃ body, storeGet [("https://ex.com/2024/3/2/hello", ("H", "text/html"))] k
          = some (body, "text/html") ∧
        envC.parseEntryFromHtml body (envC.urlResolve cfgC.url k) = some parsedC ∧
        (parsedC.url = envC.urlResolve cfgC.url k ∨
         parsedC.url ++ ".html" = envC.urlResolve cfgC.url k) :=
  (scan_admission cfgC envC).1 [("https://ex.com/2024/3/2/hello", ("H", "text/html"))]
    "https://ex.com/2024/3/2/hello" parsedC rfl


theorem errTrace_no_commit (ws : List Eff)
    (hws : ∀ w ∈ ws, (Act.crit w).isCommitAct = false) :
    ∀ a ∈ errTrace ws, a.isCommitAct = false := by
  intro a ha
  simp only [errTrace, Ph.reify, List.map_nil, List.mem_cons, List.mem_append,
    List.mem_map] at ha
  rcases ha with (rfl | ⟨w, hw, rfl⟩) | ha2
  · rfl
  · exact hws w hw
  · rcases ha2 with rfl | ha3
    · rfl
    · simp at ha3

theorem isPut_crit_not_commit (w : Eff) (h : w.isPut = true) :
    (Act.crit w).isCommitAct = false := by
  cases w with
  | put k b ct => rfl
  | setIndex u => simp [Eff.isPut] at h
  | commit msg => simp [Eff.isPut] at h
  | notify s t d => simp [Eff.isPut] at h

theorem mediaEffs_isPut (m : Micropub) (slug : String) :
    ∀ w ∈ mediaEffs m slug, w.isPut = true := by
  intro w hw
  simp only [mediaEffs, List.mem_append] at hw
  rcases hw with hw | hw
  · cases hph : m.photo with
    | none =>
        rw [hph] at hw
        simp at hw
    | some f =>
        rw [hph] at hw
        simp only [List.mem_singleton] at hw
        subst hw
        rfl
  · cases hau : m.audio with
    | none =>
        rw [hau] at hw
        simp at hw
    | some f =>
        rw [hau] at hw
        simp only [List.mem_singleton] at hw
        subst hw
        rfl

theorem mediaEffs_isMediaPut (m : Micropub) (slug : String) :
    ∀ w ∈ mediaEffs m slug, w.isMediaPut m := by
  intro w hw
  simp only [mediaEffs, List.mem_append] at hw
  rcases hw with hw | hw
  · cases hph : m.photo with
    | none =>
        rw [hph] at hw
        simp at hw
    | some f =>
        rw [hph] at hw
        simp only [List.mem_singleton] at hw
        subst hw
        exact ⟨slug, f, Or.inl hph, rfl⟩
  · cases hau : m.audio with
    | none =>
        rw [hau] at hw
        simp at hw
    | some f =>
        rw [hau] at hw
        simp only [List.mem_singleton] at hw
        subst hw
        exact ⟨slug, f, Or.inr hau, rfl⟩

/-- Claim C1 (amended): when publish fails before the first index update —
slug-probe divergence, reference resolution, or the canonicalizing re-parse
— the Entry Index is unchanged, the store has received only the media-file
writes of the attached photo/audio, the trace is the abort trace of exactly
those writes, and no commit was performed.  (A POSSE syndication failure,
excluded here, also aborts before commit but leaves the already-updated
index and store behind; see the counterexample.) -/
theorem publish_abort_pre_update (cfg : SiteCfg) (env : Env) (fuel : Nat) (now : DateT)
    (m : Micropub) (st : SiteState) :
    ∀ (er : Err) (st' : SiteState) (tr : List Act),
      publish cfg env fuel now m st = (.error er, st', tr) →
      er ≠ .syndicationFailed →
      st'.entries = st.entries ∧
      (∃ ws, st'.store = applyPuts st.store ws ∧ (∀ w ∈ ws, w.isMediaPut m) ∧
        tr = errTrace ws) ∧
      (∀ a ∈ tr, a.isCommitAct = false) := by
  intro er st' tr h hns
  unfold publish at h
  split at h
  · simp only [Prod.mk.injEq] at h
    obtain ⟨he, hst, htr⟩ := h
    subst hst
    subst htr
    exact ⟨rfl, ⟨[], rfl, by simp, rfl⟩, errTrace_no_commit [] (by simp)⟩
  · split at h
    · simp only [Prod.mk.injEq] at h
      obtain ⟨he, hst, htr⟩ := h
      subst hst
      subst htr
      exact ⟨rfl, ⟨[], rfl, by simp, rfl⟩, errTrace_no_commit [] (by simp)⟩
    · split at h
      · simp only [Prod.mk.injEq] at h
        obtain ⟨he, hst, htr⟩ := h
        subst hst
        subst htr
        exact ⟨rfl, ⟨[], rfl, by simp, rfl⟩, errTrace_no_commit [] (by simp)⟩
      · split at h
        · simp only [Prod.mk.injEq] at h
          obtain ⟨he, hst, htr⟩ := h
          subst hst
          subst htr
          exact ⟨rfl, ⟨[], rfl, by simp, rfl⟩, errTrace_no_commit [] (by simp)⟩
        · simp only [] at h
          split at h
          · simp only [Prod.mk.injEq] at h
            obtain ⟨he, hst, htr⟩ := h
            subst hst
            subst htr
            exact ⟨rfl, ⟨mediaEffs m _, rfl, mediaEffs_isMediaPut m _, rfl⟩,
              errTrace_no_commit _
                (fun w hw => isPut_crit_not_commit w (mediaEffs_isPut m _ w hw))⟩
          · split at h
            · unfold publishFinish at h
              simp only [Prod.mk.injEq] at h
              exact absurd h.1 (by simp)
            · split at h
              · simp only [Prod.mk.injEq] at h
                exact absurd (Except.error.inj h.1).symm hns
              · unfold publishFinish at h
                simp only [Prod.mk.injEq] at h
                exact absurd h.1 (by simp)

/-- Witness for C1 (amended): a concrete publish whose reply-to reference
fails to resolve leaves index and store untouched and performs no write and
no commit. -/
theorem publish_abort_pre_update_witness :
    (publish cfgC envC 3 nowC mReply st0).2.1.entries = st0.entries ∧
    (∃ ws, (publish cfgC envC 3 nowC mReply st0).2.1.store = applyPuts st0.store ws ∧
      (∀ w ∈ ws, w.isMediaPut mReply) ∧
      (publish cfgC envC 3 nowC mReply st0).2.2 = errTrace ws) ∧
    (∀ a ∈ (publish cfgC envC 3 nowC mReply st0).2.2, a.isCommitAct = false) :=
  publish_abort_pre_update cfgC envC 3 nowC mReply st0
    (.resolveFailed "https://r.com/p")
    (publish cfgC envC 3 nowC mReply st0).2.1
    (publish cfgC envC 3 nowC mReply st0).2.2
    rfl (by decide)

/-- Counterexample to Claim C1: a publish that fails at the POSSE
syndication step — before the store commit — leaves the new entry in the
Entry Index and the entry page already written to the store (a non-media
write): store and index are not left unchanged. -/
theorem publish_torn_state_counterexample :
    publishCex.1 = .error .syndicationFailed ∧
    publishCex.2.1.entries.map Prod.fst = ["https://ex.com/2024/3/2/hello"] ∧
    (storeGet publishCex.2.1.store "https://ex.com/2024/3/2/hello").isSome = true ∧
    st0.entries = [] ∧ storeGet st0.store "https://ex.com/2024/3/2/hello" = none ∧
    (∀ a ∈ publishCex.2.2, a.isCommitAct = false) := by
  exact ⟨rfl, by decide, by decide, rfl, rfl, by decide⟩

theorem withSendWm_resolveRef (e : Env) (f : String → String → Option Unit)
    (o : Option String) : resolveRef (e.withSendWm f) o = resolveRef e o := rfl

theorem withSendWm_buildEntry (cfg : SiteCfg) (e : Env) (f : String → String → Option Unit)
    (m : Micropub) (now : DateT) (slug : String) (rt lo ro : List Entry) :
    buildEntry cfg (e.withSendWm f) m now slug rt lo ro
      = buildEntry cfg e m now slug rt lo ro := rfl

theorem withSendWm_updateSite (cfg : SiteCfg) (e : Env) (f : String → String → Option Unit)
    (st : SiteState) (x : Entry) :
    updateSite cfg (e.withSendWm f) st x = updateSite cfg e st x := rfl

theorem withSendWm_oembed (e : Env) (f : String → String → Option Unit) :
    (e.withSendWm f).oembed = e.oembed := rfl

theorem withSendWm_mentionsOf (e : Env) (f : String → String → Option Unit) :
    (e.withSendWm f).mentionsOf = e.mentionsOf := rfl

theorem withSendWm_parseEntryFromHtml (e : Env) (f : String → String → Option Unit) :
    (e.withSendWm f).parseEntryFromHtml = e.parseEntryFromHtml := rfl

theorem withSendWm_renderEntry (e : Env) (f : String → String → Option Unit) :
    (e.withSendWm f).renderEntry = e.renderEntry := rfl

theorem withSendWm_syndicate (e : Env) (f : String → String → Option Unit) :
    (e.withSendWm f).syndicate = e.syndicate := rfl

theorem oembedFold_go (f : String → Option String) :
    ∀ (links : List String) (acc : Option String),
      links.foldl (fun acc l =>
          match f l with
          | none => acc
          | some s => some (acc.getD "" ++ s)) acc
        = (links.filterMap f).foldl (fun acc s => some (acc.getD "" ++ s)) acc := by
  intro links
  induction links with
  | nil =>
      intro acc
      rfl
  | cons l ls ih =>
      intro acc
      simp only [List.foldl_cons, List.filterMap_cons]
      cases hf : f l with
      | none => simp [ih]
      | some s => simp [ih, List.foldl_cons]

theorem publishFinish_fst (env : Env) (x : Entry) (st : SiteState) (ws : List Eff) :
    (publishFinish env x st ws).1 = .ok x := rfl

theorem publishFinish_state (env : Env) (x : Entry) (st : SiteState) (ws : List Eff) :
    (publishFinish env x st ws).2.1 = st := rfl

/-- Claim C7 (amended): outbound webmention delivery failures never affect
the publish result or the resulting state (only the delivery log differs),
and each oEmbed lookup failure is swallowed at its point of use — the embed
accumulation over any lookup function equals the accumulation over just its
successful lookups; but a POSSE syndication failure is NOT caught: whenever
the pipeline reaches the syndication step and the syndication call fails,
the publish operation itself fails. -/
theorem best_effort_amended :
    (∀ (e : Env) (f g : String → String → Option Unit) (cfg : SiteCfg) (fuel : Nat)
        (now : DateT) (m : Micropub) (st : SiteState),
        (publish cfg (e.withSendWm f) fuel now m st).1
            = (publish cfg (e.withSendWm g) fuel now m st).1 ∧
        (publish cfg (e.withSendWm f) fuel now m st).2.1
            = (publish cfg (e.withSendWm g) fuel now m st).2.1) ∧
    (∀ (f : String → Option String) (links : List String),
        oembedFold f links = oembedFold some (links.filterMap f)) ∧
    (∀ (cfg : SiteCfg) (env : Env) (fuel : Nat) (now : DateT) (m : Micropub)
        (st : SiteState) (slug : String) (rt lo ro : List Entry) (e3 : Entry),
        getSlugFuel (storeHas st.store) fuel m.name now = some slug →
        resolveRef env m.replyTo = .ok rt →
        resolveRef env m.likeOf = .ok lo →
        resolveRef env m.repostOf = .ok ro →
        env.parseEntryFromHtml
            (env.renderEntry ((buildEntry cfg env m now slug rt lo ro).withEmbed
              (oembedFold env.oembed
                (env.mentionsOf (buildEntry cfg env m now slug rt lo ro)))))
            ((buildEntry cfg env m now slug rt lo ro).withEmbed
              (oembedFold env.oembed
                (env.mentionsOf (buildEntry cfg env m now slug rt lo ro)))).url
            = some e3 →
        e3.syndicateTo.isEmpty = false →
        env.syndicate e3 = none →
        (publish cfg env fuel now m st).1 = .error .syndicationFailed) := by
  refine ⟨?_, ?_, ?_⟩
  · intro e f g cfg fuel now m st
    cases hs : getSlugFuel (storeHas st.store) fuel m.name now with
    | none =>
        constructor <;> simp only [publish, hs]
    | some slug =>
        cases hr1 : resolveRef e m.replyTo with
        | error er1 =>
            constructor <;>
              simp only [publish, hs, withSendWm_resolveRef, hr1]
        | ok rt =>
            cases hr2 : resolveRef e m.likeOf with
            | error er2 =>
                constructor <;>
                  simp only [publish, hs, withSendWm_resolveRef, hr1, hr2]
            | ok lo =>
                cases hr3 : resolveRef e m.repostOf with
                | error er3 =>
                    constructor <;>
                      simp only [publish, hs, withSendWm_resolveRef, hr1, hr2, hr3]
                | ok ro =>
                    cases hp : e.parseEntryFromHtml
                        (e.renderEntry ((buildEntry cfg e m now slug rt lo ro).withEmbed
                          (oembedFold e.oembed
                            (e.mentionsOf (buildEntry cfg e m now slug rt lo ro)))))
                        ((buildEntry cfg e m now slug rt lo ro).withEmbed
                          (oembedFold e.oembed
                            (e.mentionsOf (buildEntry cfg e m now slug rt lo ro)))).url with
                    | none =>
                        constructor <;>
                          simp only [publish, hs, withSendWm_resolveRef, hr1, hr2, hr3,
                            withSendWm_parseEntryFromHtml, withSendWm_renderEntry,
                            withSendWm_buildEntry, withSendWm_oembed, withSendWm_mentionsOf,
                            hp]
                    | some e3 =>
                        by_cases hse : e3.syndicateTo.isEmpty = true
                        · constructor <;>
                            simp [publish, hs, withSendWm_resolveRef, hr1, hr2, hr3,
                              withSendWm_parseEntryFromHtml, withSendWm_renderEntry,
                              withSendWm_buildEntry, withSendWm_oembed, withSendWm_mentionsOf,
                              hp, hse, withSendWm_updateSite, publishFinish_fst,
                              publishFinish_state]
                        · cases hsyn : e.syndicate e3 with
                          | none =>
                              constructor <;>
                                simp [publish, hs, withSendWm_resolveRef, hr1, hr2, hr3,
                                  withSendWm_parseEntryFromHtml, withSendWm_renderEntry,
                                  withSendWm_buildEntry, withSendWm_oembed,
                                  withSendWm_mentionsOf, hp, hse, withSendWm_syndicate,
                                  hsyn, withSendWm_updateSite]
                          | some urls =>
                              constructor <;>
                                simp [publish, hs, withSendWm_resolveRef, hr1, hr2, hr3,
                                  withSendWm_parseEntryFromHtml, withSendWm_renderEntry,
                                  withSendWm_buildEntry, withSendWm_oembed,
                                  withSendWm_mentionsOf, hp, hse, withSendWm_syndicate,
                                  hsyn, withSendWm_updateSite, publishFinish_fst,
                                  publishFinish_state]
  · intro f links
    exact (oembedFold_go f links none).trans rfl
  · intro cfg env fuel now m st slug rt lo ro e3 hslug hr1 hr2 hr3 hp hne hsyn
    simp only [publish, hslug, hr1, hr2, hr3, hp]
    simp [hne, hsyn]

/-- Counterexample to Claim C7: the same concrete publish succeeds when the
POSSE syndication collaborator succeeds, and fails as a whole when only the
POSSE syndication call fails — the failure is propagated, not caught. -/
theorem posse_not_caught_counterexample :
    publishCex.1 = .error .syndicationFailed ∧
    publishCok.1 = .ok (parsedC.withSyndication ["https://tw/1"]) :=
  ⟨rfl, rfl⟩

/-- Witness for C7 (amended): the sendWm-independence and the propagation
part at concrete inputs. -/
theorem best_effort_amended_witness :
    ((publish cfgC (envC.withSendWm (fun _ _ => none)) 3 nowC mC st0).1
        = (publish cfgC (envC.withSendWm (fun _ _ => some ())) 3 nowC mC st0).1) ∧
    oembedFold (fun _ => none) ["a", "b"] = oembedFold some [] ∧
    (publish cfgC envC 3 nowC mC st0).1 = .error .syndicationFailed :=
  ⟨(best_effort_amended.1 envC (fun _ _ => none) (fun _ _ => some ()) cfgC 3 nowC mC st0).1,
   best_effort_amended.2.1 (fun _ => none) ["a", "b"],
   best_effort_amended.2.2 cfgC envC 3 nowC mC st0 "/2024/3/2/hello" [] [] [] parsedC
     rfl rfl rfl rfl rfl (by decide) rfl⟩

theorem serialAux {s1 s2 : List Act} {tr : List (Bool × Act)} (hsh : Shuffle s1 s2 tr) :
    ∀ (h : Option Bool) (d1 d2 : Ph), s1 = d1.reify → s2 = d2.reify →
      mutexOk h tr = true → HOk h d1 d2 → Concl h d1 d2 tr := by
  induction hsh with
  | nil =>
      intro h d1 d2 h1 h2 hm hok
      cases d1 with
      | full cs ps => simp [Ph.reify] at h1
      | inCrit cs ps => simp [Ph.reify, List.append_eq_nil] at h1
      | inPost ps1 =>
          cases d2 with
          | full cs ps => simp [Ph.reify] at h2
          | inCrit cs ps => simp [Ph.reify, List.append_eq_nil] at h2
          | inPost ps2 =>
              cases h with
              | none => exact Or.inl rfl
              | some b =>
                  cases b with
                  | false => exact hok.1.elim
                  | true => exact hok.2.elim
  | left hsh ih =>
      rename_i x xs ys tr'
      intro h d1 d2 h1 h2 hm hok
      cases d1 with
      | full cs ps =>
          simp only [Ph.reify] at h1
          obtain ⟨hx, hxs⟩ := List.cons.inj h1
          subst hx
          cases h with
          | none =>
              have hm' : mutexOk (some false) tr' = true := by
                simpa [mutexOk] using hm
              have hcon := ih (some false) (.inCrit cs ps) d2 hxs h2 hm' ⟨trivial, hok.2⟩
              have hcon' : critProj tr' = tagB false cs ++ tagB true d2.crits := hcon
              exact Or.inl hcon'
          | some b => simp [mutexOk] at hm
      | inCrit cs ps =>
          cases h with
          | none => exact hok.1.elim
          | some b =>
              cases b with
              | true => exact hok.1.elim
              | false =>
                  cases cs with
                  | nil =>
                      simp only [Ph.reify, List.map_nil, List.nil_append] at h1
                      obtain ⟨hx, hxs⟩ := List.cons.inj h1
                      subst hx
                      have hm' : mutexOk none tr' = true := by
                        simpa [mutexOk] using hm
                      have hcon := ih none (.inPost ps) d2 hxs h2 hm' ⟨trivial, hok.2⟩
                      have hthis : critProj tr' = tagB true d2.crits := by
                        rcases hcon with hc | hc
                        · simpa [Ph.crits, tagB] using hc
                        · have hc' : critProj tr' = tagB true d2.crits ++ tagB false [] := hc
                          simpa [tagB] using hc'
                      exact hthis
                  | cons c cs' =>
                      simp only [Ph.reify, List.map_cons, List.cons_append] at h1
                      obtain ⟨hx, hxs⟩ := List.cons.inj h1
                      subst hx
                      have hm' : mutexOk (some false) tr' = true := by
                        simpa [mutexOk] using hm
                      have hcon := ih (some false) (.inCrit cs' ps) d2 hxs h2 hm' ⟨trivial, hok.2⟩
                      have hcon' : critProj tr' = tagB false cs' ++ tagB true d2.crits := hcon
                      exact congrArg (List.cons (false, c)) hcon'
      | inPost ps =>
          cases ps with
          | nil => simp [Ph.reify] at h1
          | cons p ps' =>
              simp only [Ph.reify, List.map_cons] at h1
              obtain ⟨hx, hxs⟩ := List.cons.inj h1
              subst hx
              have hm' : mutexOk h tr' = true := by
                cases h <;> simpa [mutexOk] using hm
              cases h with
              | none =>
                  have hcon := ih none (.inPost ps') d2 hxs h2 hm' ⟨trivial, hok.2⟩
                  rcases hcon with hc | hc
                  · exact Or.inl hc
                  · exact Or.inr hc
              | some b =>
                  cases b with
                  | false => exact hok.1.elim
                  | true => exact ih (some true) (.inPost ps') d2 hxs h2 hm' ⟨trivial, hok.2⟩
  | right hsh ih =>
      rename_i y xs ys tr'
      intro h d1 d2 h1 h2 hm hok
      cases d2 with
      | full cs ps =>
          simp only [Ph.reify] at h2
          obtain ⟨hy, hys⟩ := List.cons.inj h2
          subst hy
          cases h with
          | none =>
              have hm' : mutexOk (some true) tr' = true := by
                simpa [mutexOk] using hm
              have hcon := ih (some true) d1 (.inCrit cs ps) h1 hys hm' ⟨hok.1, trivial⟩
              have hcon' : critProj tr' = tagB true cs ++ tagB false d1.crits := hcon
              exact Or.inr hcon'
          | some b => simp [mutexOk] at hm
      | inCrit cs ps =>
          cases h with
          | none => exact hok.2.elim
          | some b =>
              cases b with
              | false => exact hok.2.elim
              | true =>
                  cases cs with
                  | nil =>
                      simp only [Ph.reify, List.map_nil, List.nil_append] at h2
                      obtain ⟨hy, hys⟩ := List.cons.inj h2
                      subst hy
                      have hm' : mutexOk none tr' = true := by
                        simpa [mutexOk] using hm
                      have hcon := ih none d1 (.inPost ps) h1 hys hm' ⟨hok.1, trivial⟩
                      have hthis : critProj tr' = tagB false d1.crits := by
                        rcases hcon with hc | hc
                        · have hc' : critProj tr' = tagB false d1.crits ++ tagB true [] := hc
                          simpa [tagB] using hc'
                        · simpa [Ph.crits, tagB] using hc
                      exact hthis
                  | cons c cs' =>
                      simp only [Ph.reify, List.map_cons, List.cons_append] at h2
                      obtain ⟨hy, hys⟩ := List.cons.inj h2
                      subst hy
                      have hm' : mutexOk (some true) tr' = true := by
                        simpa [mutexOk] using hm
                      have hcon := ih (some true) d1 (.inCrit cs' ps) h1 hys hm' ⟨hok.1, trivial⟩
                      have hcon' : critProj tr' = tagB true cs' ++ tagB false d1.crits := hcon
                      exact congrArg (List.cons (true, c)) hcon'
      | inPost ps =>
          cases ps with
          | nil => simp [Ph.reify] at h2
          | cons p ps' =>
              simp only [Ph.reify, List.map_cons] at h2
              obtain ⟨hy, hys⟩ := List.cons.inj h2
              subst hy
              have hm' : mutexOk h tr' = true := by
                cases h <;> simpa [mutexOk] using hm
              cases h with
              | none =>
                  have hcon := ih none d1 (.inPost ps') h1 hys hm' ⟨hok.1, trivial⟩
                  rcases hcon with hc | hc
                  · exact Or.inl hc
                  · exact Or.inr hc
              | some b =>
                  cases b with
                  | true => exact hok.2.elim
                  | false => exact ih (some false) d1 (.inPost ps') h1 hys hm' ⟨hok.1, trivial⟩

theorem publish_trace_shape (cfg : SiteCfg) (env : Env) (fuel : Nat) (now : DateT)
    (m : Micropub) (st : SiteState) :
    ∃ cs ps, (publish cfg env fuel now m st).2.2 = (Ph.full cs ps).reify ∧
      (∀ x ∈ ps, x.isNotify = true) ∧
      (∀ x : Entry, (publish cfg env fuel now m st).1 = .ok x →
          ∃ msg, Eff.commit msg ∈ cs) := by
  rcases hP : publish cfg env fuel now m st with ⟨res, stx, tr⟩
  unfold publish at hP
  split at hP
  · simp only [Prod.mk.injEq] at hP
    obtain ⟨hres, hst, htr⟩ := hP
    exact ⟨[], [], htr.symm, by simp, fun x hx => absurd (hres ▸ hx) (by simp)⟩
  · split at hP
    · simp only [Prod.mk.injEq] at hP
      obtain ⟨hres, hst, htr⟩ := hP
      exact ⟨[], [], htr.symm, by simp, fun x hx => absurd (hres ▸ hx) (by simp)⟩
    · split at hP
      · simp only [Prod.mk.injEq] at hP
        obtain ⟨hres, hst, htr⟩ := hP
        exact ⟨[], [], htr.symm, by simp, fun x hx => absurd (hres ▸ hx) (by simp)⟩
      · split at hP
        · simp only [Prod.mk.injEq] at hP
          obtain ⟨hres, hst, htr⟩ := hP
          exact ⟨[], [], htr.symm, by simp, fun x hx => absurd (hres ▸ hx) (by simp)⟩
        · simp only [] at hP
          split at hP
          · simp only [Prod.mk.injEq] at hP
            obtain ⟨hres, hst, htr⟩ := hP
            exact ⟨mediaEffs m _, [], htr.symm, by simp,
              fun x hx => absurd (hres ▸ hx) (by simp)⟩
          · split at hP
            · unfold publishFinish at hP
              simp only [Prod.mk.injEq] at hP
              obtain ⟨hres, hst, htr⟩ := hP
              refine ⟨_, _, htr.symm, ?_, ?_⟩
              · intro x hx
                rcases List.mem_map.mp hx with ⟨l, _, rfl⟩
                rfl
              · intro x _
                exact ⟨_, List.mem_append_right _ (List.mem_singleton.mpr rfl)⟩
            · split at hP
              · simp only [Prod.mk.injEq] at hP
                obtain ⟨hres, hst, htr⟩ := hP
                exact ⟨_, [], htr.symm, by simp,
                  fun x hx => absurd (hres ▸ hx) (by simp)⟩
              · unfold publishFinish at hP
                simp only [Prod.mk.injEq] at hP
                obtain ⟨hres, hst, htr⟩ := hP
                refine ⟨_, _, htr.symm, ?_, ?_⟩
                · intro x hx
                  rcases List.mem_map.mp hx with ⟨l, _, rfl⟩
                  rfl
                · intro x _
                  exact ⟨_, List.mem_append_right _ (List.mem_singleton.mpr rfl)⟩

theorem receive_trace_shape (env : Env) (st : SiteState) (s t : String) :
    ∃ cs, (receiveWebmention env st s t).2.2 = (Ph.full cs []).reify ∧
      ((receiveWebmention env st s t).1 = .ok () → ∃ msg, Eff.commit msg ∈ cs) := by
  cases hA : alGet st.entries t with
  | none => exact ⟨[], by simp [receiveWebmention, hA, errTrace], by simp [receiveWebmention, hA]⟩
  | some te =>
      cases hF : env.fetchEntry s with
      | none =>
          exact ⟨[], by simp [receiveWebmention, hA, hF, errTrace],
            by simp [receiveWebmention, hA, hF]⟩
      | some se =>
          cases hM : (env.mentionsOf se).any (fun x => x == t) with
          | false =>
              exact ⟨[], by simp [receiveWebmention, hA, hF, hM, errTrace],
                by simp [receiveWebmention, hA, hF, hM]⟩
          | true =>
              refine ⟨[Eff.put (env.urlPathname (te.addChild se).url)
                  (env.renderEntry (te.addChild se)) "text/html",
                Eff.setIndex t, Eff.commit (env.commitMsg se)], ?_, ?_⟩
              · simp [receiveWebmention, hA, hF, hM, okTrace]
              · intro _
                exact ⟨env.commitMsg se, by simp⟩

/-- Claim C9: every publish run's trace takes the lock first, performs all
store writes, index mutations and the commit while holding it, releases,
and performs only outbound-notification effects after release; every
receive-webmention run's trace has the same lock-guarded shape with nothing
after release; and for any mutex-respecting interleaving of two such
lock-guarded traces the critical effects (store writes, index mutations,
commit) of the two calls appear contiguously — one call's complete locked
section, its commit included, precedes every critical effect of the other,
so the second call's index mutation is observable only after the first
call's commit.  The mutex itself (`util.Mutex`, not under `src/`) is
modelled from the spec as a single advisory mutual-exclusion lock. -/
theorem mutex_serialization :
    (∀ (cfg : SiteCfg) (env : Env) (fuel : Nat) (now : DateT) (m : Micropub)
        (st : SiteState),
        ∃ cs ps, (publish cfg env fuel now m st).2.2 = (Ph.full cs ps).reify ∧
          (∀ x ∈ ps, x.isNotify = true) ∧
          (∀ x : Entry, (publish cfg env fuel now m st).1 = .ok x →
              ∃ msg, Eff.commit msg ∈ cs)) ∧
    (∀ (env : Env) (st : SiteState) (s t : String),
        ∃ cs, (receiveWebmention env st s t).2.2 = (Ph.full cs []).reify ∧
          ((receiveWebmention env st s t).1 = .ok () → ∃ msg, Eff.commit msg ∈ cs)) ∧
    (∀ (cs1 ps1 cs2 ps2 : List Eff) (tr : List (Bool × Act)),
        Shuffle (Ph.full cs1 ps1).reify (Ph.full cs2 ps2).reify tr →
        mutexOk none tr = true →
        critProj tr = tagB false cs1 ++ tagB true cs2 ∨
        critProj tr = tagB true cs2 ++ tagB false cs1) :=
  ⟨publish_trace_shape, receive_trace_shape,
   fun cs1 ps1 cs2 ps2 tr hsh hm =>
     serialAux hsh none (.full cs1 ps1) (.full cs2 ps2) rfl rfl hm ⟨trivial, trivial⟩⟩

/-- Witness for C9: a concrete mutex-respecting interleaving of two locked
scripts keeps their critical effects contiguous. -/
theorem mutex_serialization_witness :
    critProj trSerialW = tagB false [Eff.setIndex "a"] ++ tagB true [Eff.setIndex "b"] ∨
    critProj trSerialW = tagB true [Eff.setIndex "b"] ++ tagB false [Eff.setIndex "a"] :=
  mutex_serialization.2.2 [Eff.setIndex "a"] [] [Eff.setIndex "b"] [] trSerialW
    (Shuffle.left (Shuffle.left (Shuffle.left
      (Shuffle.right (Shuffle.right (Shuffle.right Shuffle.nil))))))
    (by decide)
